import Mathlib

/-!
Shallow embedding of the core of the zdm-proxy repository:

* the control message protocol of package updates
  (src/migration/migration/metrics.go): the Update struct, its JSON plus
  length first wire format, the reliable Send with exponential backoff, and
  the CommunicationHandler dispatch loop;
* the client connection relay (ClientConnector, src/unnamed/part_000):
  the request reading loop and the response writing loop.

Byte strings are modelled as lists of natural numbers below 256; Go strings
are byte lists.  Go library functions used by the source (encoding/json on
the Update struct, encoding/base64, encoding/binary big endian, the
jpillora backoff package) are modelled faithfully at the byte level for the
shapes the source feeds them.
-/

/-- UpdateType is the enum of types of update between the proxy and
migration services, from the iota const block of the source
(TableUpdate, TableRestart, Start, Complete, Shutdown, Success, Failure). -/
inductive UpdateType where
  | TableUpdate
  | TableRestart
  | Start
  | Complete
  | Shutdown
  | Success
  | Failure
deriving DecidableEq

/-- The integer value of an UpdateType, fixed by the iota const block. -/
def UpdateType.toNat : UpdateType → Nat
  | UpdateType.TableUpdate => 0
  | UpdateType.TableRestart => 1
  | UpdateType.Start => 2
  | UpdateType.Complete => 3
  | UpdateType.Shutdown => 4
  | UpdateType.Success => 5
  | UpdateType.Failure => 6

/-- Partial inverse of UpdateType.toNat, used when a message is decoded. -/
def updateTypeOfNat : Nat → Option UpdateType
  | 0 => some UpdateType.TableUpdate
  | 1 => some UpdateType.TableRestart
  | 2 => some UpdateType.Start
  | 3 => some UpdateType.Complete
  | 4 => some UpdateType.Shutdown
  | 5 => some UpdateType.Success
  | 6 => some UpdateType.Failure
  | _ => none

/-- Update represents a request between the migration and proxy services,
from the source struct with fields ID (string), Type (UpdateType),
Data (byte slice) and Error (string).  ID and Error are byte strings.
Data is an optional byte string: none stands for a nil Go slice, which
encoding/json writes as null, while some d is a real slice written as a
base64 string. -/
structure Update where
  ID : List Nat
  «Type» : UpdateType
  Data : Option (List Nat)
  Error : List Nat
deriving DecidableEq

/-- Lower case hexadecimal digit byte of a value below 16, as the
encoding/json escaper writes it. -/
def hexDigit (n : Nat) : Nat := if n < 10 then 48 + n else 87 + n

/-- Value of one hexadecimal digit byte. -/
def hexVal (c : Nat) : Option Nat :=
  if 48 ≤ c ∧ c ≤ 57 then some (c - 48)
  else if 97 ≤ c ∧ c ≤ 102 then some (c - 87)
  else if 65 ≤ c ∧ c ≤ 70 then some (c - 55)
  else none

/-- How encoding/json (with its default HTML escaping) writes one byte
below 128 of a string value, the per byte path the encoder takes for
bytes below RuneSelf: quote and backslash get a backslash escape,
newline, carriage return and tab get their two byte escapes, the other
control bytes and the three HTML active bytes get a six byte hexadecimal
escape, and every other such byte is copied through.  Bytes of 128 and
up never reach this function: the encoder decodes them as UTF-8 runes in
escapeStringGo below. -/
def escapeByte (b : Nat) : List Nat :=
  if b = 34 then [92, 34]
  else if b = 92 then [92, 92]
  else if b = 10 then [92, 110]
  else if b = 13 then [92, 114]
  else if b = 9 then [92, 116]
  else if b < 32 ∨ b = 60 ∨ b = 62 ∨ b = 38 then
    [92, 117, 48, 48, hexDigit (b / 16), hexDigit (b % 16)]
  else [b]

/-- A UTF-8 continuation byte. -/
abbrev cont (b : Nat) : Prop := 128 ≤ b ∧ b ≤ 191

/-- The accepted second byte of a three byte UTF-8 sequence for each
leader, from the acceptRanges table of package utf8: it rules out
overlong encodings (leader 224 needs 160 and up) and surrogates
(leader 237 stops at 159). -/
abbrev accept3 (b1 b2 : Nat) : Prop :=
  (b1 = 224 ∧ 160 ≤ b2 ∧ b2 ≤ 191) ∨
    (225 ≤ b1 ∧ b1 ≤ 236 ∧ 128 ≤ b2 ∧ b2 ≤ 191) ∨
    (b1 = 237 ∧ 128 ≤ b2 ∧ b2 ≤ 159) ∨
    (238 ≤ b1 ∧ b1 ≤ 239 ∧ 128 ≤ b2 ∧ b2 ≤ 191)

/-- The accepted second byte of a four byte UTF-8 sequence for each
leader, from the acceptRanges table of package utf8: it rules out
overlong encodings (leader 240 needs 144 and up) and code points past
the last plane (leader 244 stops at 143). -/
abbrev accept4 (b1 b2 : Nat) : Prop :=
  (b1 = 240 ∧ 144 ≤ b2 ∧ b2 ≤ 191) ∨
    (241 ≤ b1 ∧ b1 ≤ 243 ∧ 128 ≤ b2 ∧ b2 ≤ 191) ∨
    (b1 = 244 ∧ 128 ≤ b2 ∧ b2 ≤ 143)

/-- The six bytes backslash, u, f, f, f, d: the escape encoding/json
writes for each byte of invalid UTF-8 (the replacement character). -/
def replacementEscape : List Nat := [92, 117, 102, 102, 102, 100]

/-- UTF-8 bytes of a code point, used by the encoder for copied through
runes and by the decoder when it meets a hexadecimal escape. -/
def utf8Bytes (c : Nat) : List Nat :=
  if c < 128 then [c]
  else if c < 2048 then [192 + c / 64, 128 + c % 64]
  else if c < 65536 then [224 + c / 4096, 128 + c / 64 % 64, 128 + c % 64]
  else [240 + c / 262144, 128 + c / 4096 % 64, 128 + c / 64 % 64, 128 + c % 64]

/-- How the encoding/json escaper writes one decoded code point of at
least 128: the line and paragraph separators U+2028 and U+2029 get their
six byte escapes, every other code point is copied through as its UTF-8
bytes. -/
def escapeRune (c : Nat) : List Nat :=
  if c = 8232 then [92, 117, 50, 48, 50, 56]
  else if c = 8233 then [92, 117, 50, 48, 50, 57]
  else utf8Bytes c

/-- The escaped form of a whole string value, as the encoding/json
escaper walks a Go string: an ASCII byte is written through escapeByte;
otherwise a rune is decoded as utf8.DecodeRuneInString does, a well
formed sequence is written through escapeRune, and a byte that does not
start a well formed sequence is written as the escape of the replacement
character U+FFFD, consuming that one byte.  The first argument is fuel
making the recursion structural; each step consumes at least one byte,
so the length of the string is enough fuel and escapeString below passes
exactly that. -/
def escapeStringGo : Nat → List Nat → List Nat
  | 0, _ => []
  | _ + 1, [] => []
  | fuel + 1, b1 :: rest =>
    if b1 < 128 then escapeByte b1 ++ escapeStringGo fuel rest
    else if 194 ≤ b1 ∧ b1 ≤ 223 then
      match rest with
      | b2 :: rest2 =>
        if cont b2 then escapeRune ((b1 - 192) * 64 + (b2 - 128)) ++ escapeStringGo fuel rest2
        else replacementEscape ++ escapeStringGo fuel rest
      | [] => replacementEscape
    else if 224 ≤ b1 ∧ b1 ≤ 239 then
      match rest with
      | b2 :: b3 :: rest3 =>
        if accept3 b1 b2 ∧ cont b3 then
          escapeRune ((b1 - 224) * 4096 + (b2 - 128) * 64 + (b3 - 128))
            ++ escapeStringGo fuel rest3
        else replacementEscape ++ escapeStringGo fuel rest
      | _ => replacementEscape ++ escapeStringGo fuel rest
    else if 240 ≤ b1 ∧ b1 ≤ 244 then
      match rest with
      | b2 :: b3 :: b4 :: rest4 =>
        if accept4 b1 b2 ∧ cont b3 ∧ cont b4 then
          escapeRune ((b1 - 240) * 262144 + (b2 - 128) * 4096 + (b3 - 128) * 64 + (b4 - 128))
            ++ escapeStringGo fuel rest4
        else replacementEscape ++ escapeStringGo fuel rest
      | _ => replacementEscape ++ escapeStringGo fuel rest
    else replacementEscape ++ escapeStringGo fuel rest

/-- The escaped form of a whole string value. -/
def escapeString (s : List Nat) : List Nat := escapeStringGo s.length s

/-- Whether a byte string is well formed UTF-8, chunk for chunk as
utf8.DecodeRuneInString accepts it: the strings that encoding/json
writes without any replacement character coercion.  Fuel as in
escapeStringGo. -/
def isUtf8Go : Nat → List Nat → Bool
  | 0, _ => true
  | _ + 1, [] => true
  | fuel + 1, b1 :: rest =>
    if b1 < 128 then isUtf8Go fuel rest
    else if 194 ≤ b1 ∧ b1 ≤ 223 then
      match rest with
      | b2 :: rest2 => if cont b2 then isUtf8Go fuel rest2 else false
      | [] => false
    else if 224 ≤ b1 ∧ b1 ≤ 239 then
      match rest with
      | b2 :: b3 :: rest3 => if accept3 b1 b2 ∧ cont b3 then isUtf8Go fuel rest3 else false
      | _ => false
    else if 240 ≤ b1 ∧ b1 ≤ 244 then
      match rest with
      | b2 :: b3 :: b4 :: rest4 =>
        if accept4 b1 b2 ∧ cont b3 ∧ cont b4 then isUtf8Go fuel rest4 else false
      | _ => false
    else false

/-- Whether a byte string is well formed UTF-8. -/
def isUtf8 (s : List Nat) : Bool := isUtf8Go s.length s

/-- Meaning of a two byte JSON escape. -/
def unescapeChar (e : Nat) : Option Nat :=
  if e = 34 then some 34
  else if e = 92 then some 92
  else if e = 47 then some 47
  else if e = 110 then some 10
  else if e = 114 then some 13
  else if e = 116 then some 9
  else if e = 98 then some 8
  else if e = 102 then some 12
  else none

/-- Parse the body of a JSON string value up to and including the closing
quote, undoing the escapes; returns the decoded bytes and the input that
follows the closing quote.  Models what json.Unmarshal does with a string
value. -/
def parseJsonStringBody : List Nat → Option (List Nat × List Nat)
  | [] => none
  | b :: rest =>
    if b = 34 then some ([], rest)
    else if b = 92 then
      match rest with
      | [] => none
      | e :: rest2 =>
        if e = 117 then
          match rest2 with
          | h1 :: h2 :: h3 :: h4 :: rest3 =>
            match hexVal h1, hexVal h2, hexVal h3, hexVal h4 with
            | some v1, some v2, some v3, some v4 =>
              match parseJsonStringBody rest3 with
              | some (content, r) =>
                some (utf8Bytes (v1 * 4096 + v2 * 256 + v3 * 16 + v4) ++ content, r)
              | none => none
            | _, _, _, _ => none
          | _ => none
        else
          match unescapeChar e with
          | some c =>
            match parseJsonStringBody rest2 with
            | some (content, r) => some (c :: content, r)
            | none => none
          | none => none
    else
      match parseJsonStringBody rest with
      | some (content, r) => some (b :: content, r)
      | none => none

/-- Standard base64 alphabet byte of a six bit value, as encoding/base64
StdEncoding writes it. -/
def b64Char (s : Nat) : Nat :=
  if s < 26 then 65 + s
  else if s < 52 then 71 + s
  else if s < 62 then s - 4
  else if s = 62 then 43
  else 47

/-- Standard base64 encoding with padding of a byte string, as
encoding/json writes a non nil byte slice field. -/
def b64Encode : List Nat → List Nat
  | [] => []
  | [b1] => [b64Char (b1 / 4), b64Char (b1 % 4 * 16), 61, 61]
  | [b1, b2] => [b64Char (b1 / 4), b64Char (b1 % 4 * 16 + b2 / 16), b64Char (b2 % 16 * 4), 61]
  | b1 :: b2 :: b3 :: rest =>
    b64Char (b1 / 4) :: b64Char (b1 % 4 * 16 + b2 / 16) ::
      b64Char (b2 % 16 * 4 + b3 / 64) :: b64Char (b3 % 64) :: b64Encode rest

/-- Six bit value of a base64 alphabet byte. -/
def b64Sextet (c : Nat) : Option Nat :=
  if 65 ≤ c ∧ c ≤ 90 then some (c - 65)
  else if 97 ≤ c ∧ c ≤ 122 then some (c - 71)
  else if 48 ≤ c ∧ c ≤ 57 then some (c + 4)
  else if c = 43 then some 62
  else if c = 47 then some 63
  else none

/-- Standard base64 decoding with padding, as json.Unmarshal reads a byte
slice field. -/
def b64Decode : List Nat → Option (List Nat)
  | [] => some []
  | c1 :: c2 :: c3 :: c4 :: rest =>
    match b64Sextet c1, b64Sextet c2 with
    | some s1, some s2 =>
      if c3 = 61 then
        if c4 = 61 ∧ rest = [] then some [s1 * 4 + s2 / 16] else none
      else
        match b64Sextet c3 with
        | some s3 =>
          if c4 = 61 then
            if rest = [] then some [s1 * 4 + s2 / 16, s2 % 16 * 16 + s3 / 4] else none
          else
            match b64Sextet c4, b64Decode rest with
            | some s4, some tail =>
              some ((s1 * 4 + s2 / 16) :: (s2 % 16 * 16 + s3 / 4) :: (s3 % 4 * 64 + s4) :: tail)
            | _, _ => none
        | none => none
    | _, _ => none
  | _ => none

/-- Decimal digit bytes of a natural number, as json.Marshal writes an
integer field; the first argument is fuel making the recursion structural. -/
def natToDigitsAux : Nat → Nat → List Nat
  | 0, _ => []
  | fuel + 1, n => if n < 10 then [48 + n] else natToDigitsAux fuel (n / 10) ++ [48 + n % 10]

/-- Decimal digit bytes of a natural number. -/
def natToDigits (n : Nat) : List Nat := natToDigitsAux (n + 1) n

/-- Split the longest run of decimal digit bytes off the front of the
input. -/
def takeDigits : List Nat → (List Nat × List Nat)
  | [] => ([], [])
  | b :: rest =>
    if 48 ≤ b ∧ b ≤ 57 then
      let p := takeDigits rest
      (b :: p.1, p.2)
    else ([], b :: rest)

/-- Value of a run of decimal digit bytes. -/
def digitsToNat (ds : List Nat) : Nat := List.foldl (fun acc d => acc * 10 + (d - 48)) 0 ds

/-- Consume an expected literal byte run off the front of the input. -/
def dropLit : List Nat → List Nat → Option (List Nat)
  | [], s => some s
  | _ :: _, [] => none
  | p :: ps, b :: bs => if p = b then dropLit ps bs else none

/-- The bytes of the object opener together with the first key:
left brace, quote, I, D, quote, colon, quote. -/
def keyID : List Nat := [123, 34, 73, 68, 34, 58, 34]

/-- Comma, quote, T, y, p, e, quote, colon. -/
def keyType : List Nat := [44, 34, 84, 121, 112, 101, 34, 58]

/-- Comma, quote, D, a, t, a, quote, colon. -/
def keyData : List Nat := [44, 34, 68, 97, 116, 97, 34, 58]

/-- Comma, quote, E, r, r, o, r, quote, colon, quote. -/
def keyError : List Nat := [44, 34, 69, 114, 114, 111, 114, 34, 58, 34]

/-- The bytes n, u, l, l. -/
def litNull : List Nat := [110, 117, 108, 108]

/-- JSON value bytes of the Data field: null for a nil slice, otherwise a
quoted base64 string. -/
def dataJson : Option (List Nat) → List Nat
  | none => litNull
  | some d => 34 :: (b64Encode d ++ [34])

/-- json.Marshal of an Update value: a compact object with the fields in
struct order, string fields escaped, the integer field in decimal and the
byte slice field as base64 or null. -/
def jsonMarshalUpdate (u : Update) : List Nat :=
  keyID ++ escapeString u.ID ++ [34] ++
    keyType ++ natToDigits u.«Type».toNat ++
    keyData ++ dataJson u.Data ++
    keyError ++ escapeString u.Error ++ [34, 125]

/-- Parse the JSON value of the Data field: null gives a nil slice, a
quoted base64 string gives its decoded bytes. -/
def parseDataValue (l : List Nat) : Option (Option (List Nat) × List Nat) :=
  match dropLit litNull l with
  | some rest => some (none, rest)
  | none =>
    match l with
    | 34 :: r =>
      match parseJsonStringBody r with
      | some (content, rest) =>
        match b64Decode content with
        | some d => some (some d, rest)
        | none => none
      | none => none
    | _ => none

/-- json.Unmarshal of a message body into an Update value, specialised to
the object shape json.Marshal produces for the struct (the four fields in
struct order, compact).  Fails on anything else, as the source treats any
unmarshalling error as a decode failure. -/
def jsonUnmarshalUpdate (l : List Nat) : Option Update :=
  match dropLit keyID l with
  | none => none
  | some r1 =>
    match parseJsonStringBody r1 with
    | none => none
    | some (idBytes, r2) =>
      match dropLit keyType r2 with
      | none => none
      | some r3 =>
        match takeDigits r3 with
        | (ds, r4) =>
          if ds = [] then none
          else
            match updateTypeOfNat (digitsToNat ds) with
            | none => none
            | some t =>
              match dropLit keyData r4 with
              | none => none
              | some r5 =>
                match parseDataValue r5 with
                | none => none
                | some (d, r6) =>
                  match dropLit keyError r6 with
                  | none => none
                  | some r7 =>
                    match parseJsonStringBody r7 with
                    | none => none
                    | some (errBytes, r8) =>
                      match dropLit [125] r8 with
                      | none => none
                      | some r9 =>
                        if r9 = [] then some ⟨idBytes, t, d, errBytes⟩ else none

/-- binary.BigEndian.PutUint32 of a length: the four big endian bytes of
the value modulo two to the thirty two. -/
def beUint32Bytes (n : Nat) : List Nat :=
  [n / 16777216 % 256, n / 65536 % 256, n / 256 % 256, n % 256]

/-- binary.BigEndian.Uint32 of a four byte buffer. -/
def beUint32 : List Nat → Nat
  | [b0, b1, b2, b3] => b0 % 256 * 16777216 + b1 % 256 * 65536 + b2 % 256 * 256 + b3 % 256
  | _ => 0

/-- Update.Serialize from the source: json.Marshal the struct and put the
four byte big endian length of the marshalled bytes in front. -/
def Update.Serialize (u : Update) : List Nat :=
  beUint32Bytes (jsonMarshalUpdate u).length ++ jsonMarshalUpdate u

/-- Deserialisation as claim C2 reads it: strip the four byte length that
Serialize put in front and decode the body the way CommunicationHandler
does, with json.Unmarshal. -/
def deserializeUpdate (l : List Nat) : Option Update :=
  if l.length < 4 then none else jsonUnmarshalUpdate (List.drop 4 l)

/-- All bytes of a byte string are really bytes. -/
abbrev validBytes (l : List Nat) : Prop := ∀ b ∈ l, b < 256

/-- The Update holds a well formed id and error string and a payload made
of real bytes: the id and error must be valid UTF-8 (otherwise
json.Marshal coerces them to replacement characters), the payload is
arbitrary bytes since it travels as base64. -/
abbrev validUpdate (u : Update) : Prop :=
  isUtf8 u.ID = true ∧ validBytes (u.Data.getD []) ∧ isUtf8 u.Error = true

/-- Update.Success from the source: the serialised acknowledgment carrying
the id of the original update, type Success, a nil Data slice and an empty
Error string. -/
def Update.Success (u : Update) : List Nat :=
  Update.Serialize ⟨u.ID, UpdateType.Success, none, []⟩

/-- Update.Failure from the source: it is handed a Go error value and
builds the serialised acknowledgment carrying the id of the original
update, type Failure and the text of that error.  The error argument is an
optional byte string, none standing for a nil Go error; the source calls
its Error method on it, so a nil argument is a nil pointer dereference,
modelled as none. -/
def Update.Failure (u : Update) (err : Option (List Nat)) : Option (List Nat) :=
  match err with
  | none => none
  | some msg => some (Update.Serialize ⟨u.ID, UpdateType.Failure, none, msg⟩)

/-- The kind of error a connection read can fail with: io.EOF or any other
read error. -/
inductive ReadErr where
  | eof
  | other
deriving DecidableEq

/-- What one pass of the CommunicationHandler loop does: call os.Exit with
a code, skip the message and continue, crash on a nil pointer dereference,
or finish the pass having written the given byte strings to the
destination connection. -/
inductive CtrlOutcome where
  | exit (code : Nat)
  | skip
  | panic
  | handled (writes : List (List Nat))
deriving DecidableEq

/-- One pass of the CommunicationHandler loop from the source.  The first
argument is the result of reading into the four byte length buffer: the
bytes obtained and the error returned, if any.  The second argument is
what the read into the body buffer produced.  The handler returns none for
success and the text of its error otherwise.

Control flow as in the source: a read error equal to io.EOF logs and calls
os.Exit(100); any other read error falls through to the short read check;
fewer than four length bytes skip the pass; a body shorter than the
declared length skips the pass; an unmarshalling failure skips the pass;
then the handler runs, and for a non acknowledgment update a response is
built and written — but on a handler error the source passes the local
err variable, which holds the nil error json.Unmarshal just returned,
to Update.Failure instead of the handler error, so that branch
dereferences nil. -/
def ctrlStep (lengthRead : List Nat × Option ReadErr) (bodyBytes : List Nat)
    (handler : Update → Option (List Nat)) : CtrlOutcome :=
  match lengthRead.2 with
  | some ReadErr.eof => CtrlOutcome.exit 100
  | _ =>
    if lengthRead.1.length < 4 then CtrlOutcome.skip
    else
      if bodyBytes.length < beUint32 (lengthRead.1.take 4) then CtrlOutcome.skip
      else
        match jsonUnmarshalUpdate (bodyBytes.take (beUint32 (lengthRead.1.take 4))) with
        | none => CtrlOutcome.skip
        | some update =>
          let handlerErr := handler update
          if update.«Type» ≠ UpdateType.Success ∧ update.«Type» ≠ UpdateType.Failure then
            match handlerErr with
            | some _ =>
              match update.Failure none with
              | some resp => CtrlOutcome.handled [resp]
              | none => CtrlOutcome.panic
            | none => CtrlOutcome.handled [update.Success]
          else CtrlOutcome.handled []

/-- The Min parameter of the backoff used by Send, in nanoseconds:
200 milliseconds. -/
def backoffMin : Nat := 200000000

/-- The Max parameter of the backoff used by Send, in nanoseconds:
10 seconds. -/
def backoffMax : Nat := 10000000000

/-- Model of the jpillora backoff package as Send configures it
(Min 200 milliseconds, Max 10 seconds, Factor 2, no jitter): ForAttempt n
is Min times Factor to the n, capped at Max.  Duration returns ForAttempt
of an internal attempt counter that starts at zero and grows by one per
call. -/
def forAttempt (attempt : Nat) : Nat :=
  if backoffMin * 2 ^ attempt > backoffMax then backoffMax else backoffMin * 2 ^ attempt

/-- The delay Send inserts before write attempt n, attempts numbered from
one.  The source writes immediately, and only after a failed write calls
Duration and sleeps; so attempt one has no delay, and before attempt n for
n at least two the sleep is the result of the Duration call numbered
n minus one, whose attempt counter is n minus two. -/
def sendDelayBefore (n : Nat) : Nat :=
  if n ≤ 1 then 0 else forAttempt (n - 2)

/-- Modelled from the spec: the Frame struct is not under src/.  Per the
spec a frame carries a direction decoded from a header flag together with
its header and body bytes; only the direction is inspected by the code
under src/. -/
structure Frame where
  Direction : Nat
  RawBytes : List Nat
deriving DecidableEq

/-- What one readAndParseFrame call inside the request loop produced: a
frame, the distinguished ShutdownErr after cancellation, io.EOF, or any
other read error.  readAndParseFrame itself is outside src/, so its
results are the input stream of the loop. -/
inductive ReadOutcome where
  | ok (f : Frame)
  | shutdownErr
  | eof
  | readErr
deriving DecidableEq

/-- Observable result of running the request loop of
ClientConnector.listenForRequests on a stream of read results: the frames
pushed onto the request channel in order, how many times the channel was
closed, whether the client handler cancel function was called, and
whether the loop has terminated (an empty remaining stream leaves the
loop blocked in the next read, so nothing is closed yet). -/
structure ReqLoopResult where
  sent : List Frame
  closeCount : Nat
  cancelCalled : Bool
  terminated : Bool
deriving DecidableEq

/-- The request loop of ClientConnector.listenForRequests from the source.
A ShutdownErr returns from the goroutine, so the deferred close of the
request channel runs and the cancel function is not called.  io.EOF and
any other read error log, call the cancel function and break, after which
the deferred close runs.  A frame with direction other than zero is
logged and skipped; a frame with direction zero is sent on the request
channel. -/
def listenForRequestsRun : List ReadOutcome → ReqLoopResult
  | [] => ⟨[], 0, false, false⟩
  | ReadOutcome.shutdownErr :: _ => ⟨[], 1, false, true⟩
  | ReadOutcome.eof :: _ => ⟨[], 1, true, true⟩
  | ReadOutcome.readErr :: _ => ⟨[], 1, true, true⟩
  | ReadOutcome.ok f :: rest =>
    let r := listenForRequestsRun rest
    if f.Direction ≠ 0 then r else { r with sent := f :: r.sent }

/-- The frames successfully read by the loop: the longest run of frame
results at the front of the stream, before the first read error of any
kind. -/
def framesRead : List ReadOutcome → List Frame
  | ReadOutcome.ok f :: rest => f :: framesRead rest
  | _ => []

/-- The first read failure in the stream, the one that terminates the
loop. -/
def firstErr : List ReadOutcome → Option ReadOutcome
  | [] => none
  | ReadOutcome.ok _ :: rest => firstErr rest
  | e :: _ => some e

/-- Modelled from the spec: writeToConnection is not under src/; the spec
says the relay writes each response payload verbatim to the client
connection, so the model returns exactly the bytes given to it as the
bytes put on the wire. -/
def writeToConnection (response : List Nat) : List Nat := response

/-- What one pass of the response loop of
ClientConnector.listenForResponses does: stop cleanly because the
response channel was closed, write bytes to the client connection, or
crash indexing response position four. -/
inductive RespOutcome where
  | stoppedClosed
  | wrote (bytes : List Nat)
  | outOfBounds
deriving DecidableEq

/-- One pass of the response loop from the source.  The input is the
result of receiving on the response channel: none when the channel is
closed, some payload otherwise.  On a payload the source evaluates
response at index four inside the trace log call before writing, so a
payload shorter than five bytes crashes before anything is written;
otherwise the payload is handed to writeToConnection. -/
def respStep (received : Option (List Nat)) : RespOutcome :=
  match received with
  | none => RespOutcome.stoppedClosed
  | some response =>
    if 4 < response.length then RespOutcome.wrote (writeToConnection response)
    else RespOutcome.outOfBounds

/-- The bytes a response loop pass put on the wire, if any. -/
def writtenBytes : RespOutcome → Option (List Nat)
  | RespOutcome.wrote b => some b
  | _ => none

/-- The two relay loops of one client session. -/
inductive LoopStop where
  | requestLoopStopped
  | responseLoopStopped
deriving DecidableEq

/-- State of the session teardown: which loops have stopped and how often
the client connection has been closed. -/
structure TeardownState where
  reqStopped : Bool
  respStopped : Bool
  connCloseCount : Nat
deriving DecidableEq

/-- Modelled from the spec: the session teardown logic that owns the
client connection is not under src/ (ClientConnector.run only starts the
two loops).  Per the spec the session is torn down once both loops have
stopped and the connection is closed exactly once, whichever loop stopped
first; so a stop event marks its loop stopped, and the moment both are
stopped and the connection is still open it is closed. -/
def teardownStep (s : TeardownState) (e : LoopStop) : TeardownState :=
  let s1 :=
    match e with
    | LoopStop.requestLoopStopped => { s with reqStopped := true }
    | LoopStop.responseLoopStopped => { s with respStopped := true }
  if s1.reqStopped ∧ s1.respStopped ∧ s1.connCloseCount = 0 then
    { s1 with connCloseCount := 1 }
  else s1

/-- Run the teardown over the stop events of a session, from the open
state. -/
def runTeardown (events : List LoopStop) : TeardownState :=
  List.foldl teardownStep ⟨false, false, 0⟩ events

/-- A concrete Start update used to evaluate the dispatcher: id abc,
payload tbl1, empty error. -/
def startU : Update := ⟨[97, 98, 99], UpdateType.Start, some [116, 98, 108, 49], []⟩

/-- The bytes of the text disk full, a concrete handler error. -/
def diskFullErr : List Nat := [100, 105, 115, 107, 32, 102, 117, 108, 108]

/-- A concrete Success acknowledgment update with id a. -/
def ackU : Update := ⟨[97], UpdateType.Success, none, []⟩

/-- A concrete update whose id holds a two byte UTF-8 sequence, with
type Complete, a three byte payload and an empty error, used as a round
trip witness. -/
def c2u : Update := ⟨[122, 194, 169], UpdateType.Complete, some [0, 255, 7], []⟩

/-- A concrete update whose id is the single byte 255, which is not
valid UTF-8: json.Marshal coerces it to the replacement character, so
its round trip fails. -/
def badIdU : Update := ⟨[255], UpdateType.Start, none, []⟩

/-- Consuming an expected literal off a byte string that starts with it
leaves the tail. -/
theorem dropLit_append (p r : List Nat) : dropLit p (p ++ r) = some r := by
  induction p with
  | nil => rfl
  | cons b bs ih => simp [dropLit, ih]

/-- Writing a value below sixteen as a hexadecimal digit and reading it
back gives the value. -/
theorem hexVal_hexDigit : ∀ x < 16, hexVal (hexDigit x) = some x := by decide

/-- A code point below 128 is its own UTF-8 encoding. -/
theorem utf8Bytes_small (b : Nat) (h : b < 128) : utf8Bytes b = [b] := by
  simp [utf8Bytes, h]

/-- String parsing step: a closing quote ends the body. -/
theorem pjsb_quote (rest : List Nat) : parseJsonStringBody (34 :: rest) = some ([], rest) := by
  rw [parseJsonStringBody.eq_def]
  simp

/-- String parsing step: a plain byte is copied through. -/
theorem pjsb_plain (b : Nat) (r : List Nat) (hb1 : b ≠ 34) (hb2 : b ≠ 92)
    (content rest : List Nat) (hp : parseJsonStringBody r = some (content, rest)) :
    parseJsonStringBody (b :: r) = some (b :: content, rest) := by
  rw [parseJsonStringBody.eq_def]
  simp [hb1, hb2, hp]

/-- String parsing step: a two byte escape decodes through unescapeChar. -/
theorem pjsb_esc (e c : Nat) (r : List Nat) (he : e ≠ 117) (hc : unescapeChar e = some c)
    (content rest : List Nat) (hp : parseJsonStringBody r = some (content, rest)) :
    parseJsonStringBody (92 :: e :: r) = some (c :: content, rest) := by
  rw [parseJsonStringBody.eq_def]
  simp [he, hc, hp]

/-- String parsing step: a six byte hexadecimal escape decodes to the
UTF-8 bytes of its code point. -/
theorem pjsb_hex (h1 h2 h3 h4 v1 v2 v3 v4 : Nat) (r : List Nat)
    (e1 : hexVal h1 = some v1) (e2 : hexVal h2 = some v2)
    (e3 : hexVal h3 = some v3) (e4 : hexVal h4 = some v4)
    (content rest : List Nat) (hp : parseJsonStringBody r = some (content, rest)) :
    parseJsonStringBody (92 :: 117 :: h1 :: h2 :: h3 :: h4 :: r) =
      some (utf8Bytes (v1 * 4096 + v2 * 256 + v3 * 16 + v4) ++ content, rest) := by
  rw [parseJsonStringBody.eq_def]
  simp [e1, e2, e3, e4, hp]

/-- Parsing a run of bytes that are neither a quote nor a backslash
copies the run through and continues with the rest. -/
theorem pjsb_plain_chunk (bs r content rest : List Nat)
    (hbs : ∀ b ∈ bs, b ≠ 34 ∧ b ≠ 92)
    (hp : parseJsonStringBody r = some (content, rest)) :
    parseJsonStringBody (bs ++ r) = some (bs ++ content, rest) := by
  induction bs with
  | nil => simpa using hp
  | cons b bs ih =>
    have hb := hbs b (List.mem_cons_self b bs)
    have hs : ∀ x ∈ bs, x ≠ 34 ∧ x ≠ 92 := fun x hx => hbs x (List.mem_cons_of_mem b hx)
    simpa using pjsb_plain b (bs ++ r) hb.1 hb.2 (bs ++ content) rest (ih hs)

/-- Parsing a string body made only of bytes that are neither a quote nor
a backslash copies the bytes through up to the closing quote. -/
theorem parseJsonStringBody_plain (s t : List Nat) (h : ∀ b ∈ s, b ≠ 34 ∧ b ≠ 92) :
    parseJsonStringBody (s ++ 34 :: t) = some (s, t) := by
  simpa using pjsb_plain_chunk s (34 :: t) [] t h (pjsb_quote t)

/-- Parsing the escaped form of one ASCII byte recovers the byte. -/
theorem pjsb_escapeByte (b : Nat) (hb : b < 128) (r content rest : List Nat)
    (hp : parseJsonStringBody r = some (content, rest)) :
    parseJsonStringBody (escapeByte b ++ r) = some (b :: content, rest) := by
  by_cases h34 : b = 34
  · subst h34
    have heq : escapeByte 34 ++ r = 92 :: 34 :: r := by simp [escapeByte]
    rw [heq]
    exact pjsb_esc 34 34 r (by decide) rfl content rest hp
  · by_cases h92 : b = 92
    · subst h92
      have heq : escapeByte 92 ++ r = 92 :: 92 :: r := by simp [escapeByte]
      rw [heq]
      exact pjsb_esc 92 92 r (by decide) rfl content rest hp
    · by_cases h10 : b = 10
      · subst h10
        have heq : escapeByte 10 ++ r = 92 :: 110 :: r := by simp [escapeByte]
        rw [heq]
        exact pjsb_esc 110 10 r (by decide) rfl content rest hp
      · by_cases h13 : b = 13
        · subst h13
          have heq : escapeByte 13 ++ r = 92 :: 114 :: r := by simp [escapeByte]
          rw [heq]
          exact pjsb_esc 114 13 r (by decide) rfl content rest hp
        · by_cases h9 : b = 9
          · subst h9
            have heq : escapeByte 9 ++ r = 92 :: 116 :: r := by simp [escapeByte]
            rw [heq]
            exact pjsb_esc 116 9 r (by decide) rfl content rest hp
          · by_cases hu : b < 32 ∨ b = 60 ∨ b = 62 ∨ b = 38
            · have hd1 := hexVal_hexDigit (b / 16) (by omega)
              have hd2 := hexVal_hexDigit (b % 16) (by omega)
              have heq : escapeByte b ++ r
                  = 92 :: 117 :: 48 :: 48 :: hexDigit (b / 16) :: hexDigit (b % 16) :: r := by
                simp [escapeByte, h34, h92, h10, h13, h9, hu]
              rw [heq, pjsb_hex 48 48 (hexDigit (b / 16)) (hexDigit (b % 16))
                0 0 (b / 16) (b % 16) r rfl rfl hd1 hd2 content rest hp]
              rw [(by omega : 0 * 4096 + 0 * 256 + b / 16 * 16 + b % 16 = b),
                utf8Bytes_small b (by omega)]
              simp
            · have heq : escapeByte b ++ r = b :: r := by
                simp [escapeByte, h34, h92, h10, h13, h9, hu]
              rw [heq]
              exact pjsb_plain b r h34 h92 content rest hp

/-- The UTF-8 bytes of the code point a well formed two byte sequence
decodes to are that sequence. -/
theorem utf8Bytes_two (b1 b2 : Nat) (h1 : 194 ≤ b1 ∧ b1 ≤ 223) (h2 : cont b2) :
    utf8Bytes ((b1 - 192) * 64 + (b2 - 128)) = [b1, b2] := by
  have h2x : 128 ≤ b2 ∧ b2 ≤ 191 := h2
  unfold utf8Bytes
  rw [if_neg (by omega), if_pos (by omega)]
  have e1 : 192 + ((b1 - 192) * 64 + (b2 - 128)) / 64 = b1 := by omega
  have e2 : 128 + ((b1 - 192) * 64 + (b2 - 128)) % 64 = b2 := by omega
  rw [e1, e2]

/-- The UTF-8 bytes of the code point a well formed three byte sequence
decodes to are that sequence. -/
theorem utf8Bytes_three (b1 b2 b3 : Nat) (h2 : accept3 b1 b2) (h3 : cont b3) :
    utf8Bytes ((b1 - 224) * 4096 + (b2 - 128) * 64 + (b3 - 128)) = [b1, b2, b3] := by
  have h2x : (b1 = 224 ∧ 160 ≤ b2 ∧ b2 ≤ 191) ∨ (225 ≤ b1 ∧ b1 ≤ 236 ∧ 128 ≤ b2 ∧ b2 ≤ 191)
      ∨ (b1 = 237 ∧ 128 ≤ b2 ∧ b2 ≤ 159) ∨ (238 ≤ b1 ∧ b1 ≤ 239 ∧ 128 ≤ b2 ∧ b2 ≤ 191) := h2
  have h3x : 128 ≤ b3 ∧ b3 ≤ 191 := h3
  unfold utf8Bytes
  rw [if_neg (by omega), if_neg (by omega), if_pos (by omega)]
  have e1 : 224 + ((b1 - 224) * 4096 + (b2 - 128) * 64 + (b3 - 128)) / 4096 = b1 := by omega
  have e2 : 128 + ((b1 - 224) * 4096 + (b2 - 128) * 64 + (b3 - 128)) / 64 % 64 = b2 := by omega
  have e3 : 128 + ((b1 - 224) * 4096 + (b2 - 128) * 64 + (b3 - 128)) % 64 = b3 := by omega
  rw [e1, e2, e3]

/-- The UTF-8 bytes of the code point a well formed four byte sequence
decodes to are that sequence. -/
theorem utf8Bytes_four (b1 b2 b3 b4 : Nat) (h2 : accept4 b1 b2) (h3 : cont b3) (h4 : cont b4) :
    utf8Bytes ((b1 - 240) * 262144 + (b2 - 128) * 4096 + (b3 - 128) * 64 + (b4 - 128))
      = [b1, b2, b3, b4] := by
  have h2x : (b1 = 240 ∧ 144 ≤ b2 ∧ b2 ≤ 191) ∨ (241 ≤ b1 ∧ b1 ≤ 243 ∧ 128 ≤ b2 ∧ b2 ≤ 191)
      ∨ (b1 = 244 ∧ 128 ≤ b2 ∧ b2 ≤ 143) := h2
  have h3x : 128 ≤ b3 ∧ b3 ≤ 191 := h3
  have h4x : 128 ≤ b4 ∧ b4 ≤ 191 := h4
  unfold utf8Bytes
  rw [if_neg (by omega), if_neg (by omega), if_neg (by omega)]
  have e1 : 240 + ((b1 - 240) * 262144 + (b2 - 128) * 4096 + (b3 - 128) * 64 + (b4 - 128))
      / 262144 = b1 := by omega
  have e2 : 128 + ((b1 - 240) * 262144 + (b2 - 128) * 4096 + (b3 - 128) * 64 + (b4 - 128))
      / 4096 % 64 = b2 := by omega
  have e3 : 128 + ((b1 - 240) * 262144 + (b2 - 128) * 4096 + (b3 - 128) * 64 + (b4 - 128))
      / 64 % 64 = b3 := by omega
  have e4 : 128 + ((b1 - 240) * 262144 + (b2 - 128) * 4096 + (b3 - 128) * 64 + (b4 - 128))
      % 64 = b4 := by omega
  rw [e1, e2, e3, e4]

/-- Away from the two separators, escapeRune copies the UTF-8 bytes
through. -/
theorem escapeRune_eq (c : Nat) (h1 : c ≠ 8232) (h2 : c ≠ 8233) :
    escapeRune c = utf8Bytes c := by
  unfold escapeRune
  rw [if_neg h1, if_neg h2]

/-- Parsing the written form of any decoded code point of at least 128
recovers its UTF-8 bytes: the separators go through their escapes and
everything else is copied through as plain bytes. -/
theorem pjsb_escapeRune (c : Nat) (hc : 128 ≤ c) (r content rest : List Nat)
    (hp : parseJsonStringBody r = some (content, rest)) :
    parseJsonStringBody (escapeRune c ++ r) = some (utf8Bytes c ++ content, rest) := by
  by_cases h28 : c = 8232
  · subst h28
    have hx := pjsb_hex 50 48 50 56 2 0 2 8 r rfl rfl rfl rfl content rest hp
    simpa [escapeRune] using hx
  · by_cases h29 : c = 8233
    · subst h29
      have hx := pjsb_hex 50 48 50 57 2 0 2 9 r rfl rfl rfl rfl content rest hp
      simpa [escapeRune] using hx
    · rw [escapeRune_eq c h28 h29]
      refine pjsb_plain_chunk _ _ _ _ ?_ hp
      intro b hb
      unfold utf8Bytes at hb
      rw [if_neg (by omega)] at hb
      by_cases hc2 : c < 2048
      · rw [if_pos hc2] at hb
        simp at hb
        rcases hb with rfl | rfl <;> exact ⟨by omega, by omega⟩
      · rw [if_neg hc2] at hb
        by_cases hc3 : c < 65536
        · rw [if_pos hc3] at hb
          simp at hb
          rcases hb with rfl | rfl | rfl <;> exact ⟨by omega, by omega⟩
        · rw [if_neg hc3] at hb
          simp at hb
          rcases hb with rfl | rfl | rfl | rfl <;> exact ⟨by omega, by omega⟩

/-- Parsing the escaped form of a well formed UTF-8 byte string followed
by the closing quote recovers the string and leaves the tail, at any
sufficient fuel. -/
theorem parse_escapeGo (fuel : Nat) : ∀ (s t : List Nat), s.length ≤ fuel →
    isUtf8Go fuel s = true →
    parseJsonStringBody (escapeStringGo fuel s ++ 34 :: t) = some (s, t) := by
  induction fuel with
  | zero =>
    intro s t hlen _
    have hs : s = [] := List.eq_nil_of_length_eq_zero (Nat.le_zero.mp hlen)
    subst hs
    simpa [escapeStringGo] using pjsb_quote t
  | succ fuel ih =>
    intro s t hlen hval
    cases s with
    | nil => simpa [escapeStringGo] using pjsb_quote t
    | cons b1 rest =>
      rw [List.length_cons] at hlen
      rw [escapeStringGo.eq_def]
      rw [isUtf8Go.eq_def] at hval
      by_cases hA : b1 < 128
      · simp only [if_pos hA] at hval ⊢
        have hp := ih rest t (by omega) hval
        rw [List.append_assoc]
        exact pjsb_escapeByte b1 hA _ rest t hp
      · by_cases h2 : 194 ≤ b1 ∧ b1 ≤ 223
        · simp only [if_neg hA, if_pos h2] at hval ⊢
          cases rest with
          | nil => simp at hval
          | cons b2 rest2 =>
            by_cases hc : cont b2
            · simp only [if_pos hc] at hval ⊢
              rw [List.length_cons] at hlen
              have hp := ih rest2 t (by omega) hval
              have hcx : 128 ≤ b2 ∧ b2 ≤ 191 := hc
              rw [List.append_assoc]
              have hr := pjsb_escapeRune ((b1 - 192) * 64 + (b2 - 128)) (by omega) _ rest2 t hp
              rw [hr, utf8Bytes_two b1 b2 h2 hc]
              simp
            · simp only [if_neg hc] at hval
              simp at hval
        · by_cases h3 : 224 ≤ b1 ∧ b1 ≤ 239
          · simp only [if_neg hA, if_neg h2, if_pos h3] at hval ⊢
            cases rest with
            | nil => simp at hval
            | cons b2 rest' =>
              cases rest' with
              | nil => simp at hval
              | cons b3 rest3 =>
                by_cases hc : accept3 b1 b2 ∧ cont b3
                · simp only [if_pos hc] at hval ⊢
                  rw [List.length_cons, List.length_cons] at hlen
                  have hp := ih rest3 t (by omega) hval
                  have hcx : (b1 = 224 ∧ 160 ≤ b2 ∧ b2 ≤ 191)
                      ∨ (225 ≤ b1 ∧ b1 ≤ 236 ∧ 128 ≤ b2 ∧ b2 ≤ 191)
                      ∨ (b1 = 237 ∧ 128 ≤ b2 ∧ b2 ≤ 159)
                      ∨ (238 ≤ b1 ∧ b1 ≤ 239 ∧ 128 ≤ b2 ∧ b2 ≤ 191) := hc.1
                  have h3x : 128 ≤ b3 ∧ b3 ≤ 191 := hc.2
                  rw [List.append_assoc]
                  have hr := pjsb_escapeRune
                    ((b1 - 224) * 4096 + (b2 - 128) * 64 + (b3 - 128)) (by omega) _ rest3 t hp
                  rw [hr, utf8Bytes_three b1 b2 b3 hc.1 hc.2]
                  simp
                · simp only [if_neg hc] at hval
                  simp at hval
          · by_cases h4 : 240 ≤ b1 ∧ b1 ≤ 244
            · simp only [if_neg hA, if_neg h2, if_neg h3, if_pos h4] at hval ⊢
              cases rest with
              | nil => simp at hval
              | cons b2 rest' =>
                cases rest' with
                | nil => simp at hval
                | cons b3 rest'' =>
                  cases rest'' with
                  | nil => simp at hval
                  | cons b4 rest4 =>
                    by_cases hc : accept4 b1 b2 ∧ cont b3 ∧ cont b4
                    · simp only [if_pos hc] at hval ⊢
                      rw [List.length_cons, List.length_cons, List.length_cons] at hlen
                      have hp := ih rest4 t (by omega) hval
                      have hcx : (b1 = 240 ∧ 144 ≤ b2 ∧ b2 ≤ 191)
                          ∨ (241 ≤ b1 ∧ b1 ≤ 243 ∧ 128 ≤ b2 ∧ b2 ≤ 191)
                          ∨ (b1 = 244 ∧ 128 ≤ b2 ∧ b2 ≤ 143) := hc.1
                      have h3x : 128 ≤ b3 ∧ b3 ≤ 191 := hc.2.1
                      rw [List.append_assoc]
                      have hr := pjsb_escapeRune
                        ((b1 - 240) * 262144 + (b2 - 128) * 4096 + (b3 - 128) * 64 + (b4 - 128))
                        (by omega) _ rest4 t hp
                      rw [hr, utf8Bytes_four b1 b2 b3 b4 hc.1 hc.2.1 hc.2.2]
                      simp
                    · simp only [if_neg hc] at hval
                      simp at hval
            · simp only [if_neg hA, if_neg h2, if_neg h3, if_neg h4] at hval
              simp at hval

/-- Parsing the escaped form of a well formed UTF-8 byte string followed
by the closing quote recovers the string and leaves the tail: the
encoding/json escaper and the string parser are inverse on the strings
the escaper does not coerce. -/
theorem parseJsonStringBody_escape (s t : List Nat) (h : isUtf8 s = true) :
    parseJsonStringBody (escapeString s ++ 34 :: t) = some (s, t) := by
  unfold isUtf8 at h
  unfold escapeString
  exact parse_escapeGo s.length s t (Nat.le_refl _) h

/-- The base64 alphabet avoids the quote byte. -/
theorem b64Char_ne_quote (s : Nat) : b64Char s ≠ 34 := by
  unfold b64Char
  split_ifs <;> omega

/-- The base64 alphabet avoids the backslash byte. -/
theorem b64Char_ne_backslash (s : Nat) : b64Char s ≠ 92 := by
  unfold b64Char
  split_ifs <;> omega

/-- The base64 alphabet avoids the padding byte. -/
theorem b64Char_ne_pad (s : Nat) : b64Char s ≠ 61 := by
  unfold b64Char
  split_ifs <;> omega

/-- Writing a six bit value as a base64 alphabet byte and reading it back
gives the value. -/
theorem b64Sextet_b64Char : ∀ s < 64, b64Sextet (b64Char s) = some s := by decide

/-- Every byte of a base64 encoding is neither a quote nor a backslash,
so the string parser copies it through. -/
theorem b64Encode_plain (l : List Nat) : ∀ c ∈ b64Encode l, c ≠ 34 ∧ c ≠ 92 := by
  induction l using b64Encode.induct with
  | case1 =>
    intro c hc
    simp [b64Encode] at hc
  | case2 b1 =>
    intro c hc
    rw [b64Encode.eq_def] at hc
    simp at hc
    rcases hc with h | h | h
    · exact h.symm ▸ ⟨b64Char_ne_quote _, b64Char_ne_backslash _⟩
    · exact h.symm ▸ ⟨b64Char_ne_quote _, b64Char_ne_backslash _⟩
    · exact h.symm ▸ ⟨by omega, by omega⟩
  | case3 b1 b2 =>
    intro c hc
    rw [b64Encode.eq_def] at hc
    simp at hc
    rcases hc with h | h | h | h
    · exact h.symm ▸ ⟨b64Char_ne_quote _, b64Char_ne_backslash _⟩
    · exact h.symm ▸ ⟨b64Char_ne_quote _, b64Char_ne_backslash _⟩
    · exact h.symm ▸ ⟨b64Char_ne_quote _, b64Char_ne_backslash _⟩
    · exact h.symm ▸ ⟨by omega, by omega⟩
  | case4 b1 b2 b3 rest ih =>
    intro c hc
    rw [b64Encode.eq_def] at hc
    simp at hc
    rcases hc with h | h | h | h | h
    · exact h.symm ▸ ⟨b64Char_ne_quote _, b64Char_ne_backslash _⟩
    · exact h.symm ▸ ⟨b64Char_ne_quote _, b64Char_ne_backslash _⟩
    · exact h.symm ▸ ⟨b64Char_ne_quote _, b64Char_ne_backslash _⟩
    · exact h.symm ▸ ⟨b64Char_ne_quote _, b64Char_ne_backslash _⟩
    · exact ih c h

/-- Encoding a byte string in base64 and decoding it gives the string
back: the encoding/base64 pair is inverse. -/
theorem b64Decode_b64Encode (l : List Nat) (h : validBytes l) :
    b64Decode (b64Encode l) = some l := by
  induction l using b64Encode.induct with
  | case1 => rfl
  | case2 b1 =>
    have hb1 : b1 < 256 := h b1 (by simp)
    have e1 := b64Sextet_b64Char (b1 / 4) (by omega)
    have e2 := b64Sextet_b64Char (b1 % 4 * 16) (by omega)
    rw [b64Encode.eq_def, b64Decode.eq_def]
    simp [e1, e2]
    omega
  | case3 b1 b2 =>
    have hb1 : b1 < 256 := h b1 (by simp)
    have hb2 : b2 < 256 := h b2 (by simp)
    have e1 := b64Sextet_b64Char (b1 / 4) (by omega)
    have e2 := b64Sextet_b64Char (b1 % 4 * 16 + b2 / 16) (by omega)
    have e3 := b64Sextet_b64Char (b2 % 16 * 4) (by omega)
    rw [b64Encode.eq_def, b64Decode.eq_def]
    simp [e1, e2, e3, b64Char_ne_pad]
    constructor <;> omega
  | case4 b1 b2 b3 rest ih =>
    have hb1 : b1 < 256 := h b1 (by simp)
    have hb2 : b2 < 256 := h b2 (by simp)
    have hb3 : b3 < 256 := h b3 (by simp)
    have hrest : validBytes rest := fun x hx => h x (by simp [hx])
    have e1 := b64Sextet_b64Char (b1 / 4) (by omega)
    have e2 := b64Sextet_b64Char (b1 % 4 * 16 + b2 / 16) (by omega)
    have e3 := b64Sextet_b64Char (b2 % 16 * 4 + b3 / 64) (by omega)
    have e4 := b64Sextet_b64Char (b3 % 64) (by omega)
    rw [b64Encode.eq_def, b64Decode.eq_def]
    simp [e1, e2, e3, e4, b64Char_ne_pad, ih hrest]
    refine ⟨by omega, by omega, by omega⟩

/-- Taking the integer value of an UpdateType and mapping it back yields
the UpdateType. -/
theorem updateTypeOfNat_toNat (t : UpdateType) : updateTypeOfNat t.toNat = some t := by
  cases t <;> rfl

/-- Splitting decimal digits off a single digit byte followed by a comma
headed tail keeps just that digit. -/
theorem takeDigits_typeDigit (t : UpdateType) (y : List Nat) :
    takeDigits (natToDigits t.toNat ++ (keyData ++ y)) = ([48 + t.toNat], keyData ++ y) := by
  cases t <;> simp [natToDigits, natToDigitsAux, takeDigits, keyData, UpdateType.toNat]

/-- The value of one digit byte. -/
theorem digitsToNat_single (d : Nat) : digitsToNat [d] = d - 48 := by
  simp [digitsToNat]

/-- Parsing the JSON value written for the Data field gives the field
back and leaves the tail. -/
theorem parseDataValue_dataJson (d : Option (List Nat)) (w : List Nat)
    (hd : validBytes (d.getD [])) :
    parseDataValue (dataJson d ++ w) = some (d, w) := by
  cases d with
  | none =>
    simp [dataJson, parseDataValue, dropLit_append]
  | some dd =>
    have hplain := b64Encode_plain dd
    have hparse := parseJsonStringBody_plain (b64Encode dd) w hplain
    have hdec := b64Decode_b64Encode dd (by simpa using hd)
    simp [dataJson, parseDataValue, litNull, dropLit, hparse, hdec]

/-- json.Unmarshal of json.Marshal of an Update is the Update itself:
field level round trip of the message body. -/
theorem jsonUnmarshalUpdate_marshal (u : Update) (h : validUpdate u) :
    jsonUnmarshalUpdate (jsonMarshalUpdate u) = some u := by
  obtain ⟨hID, hData, hErr⟩ := h
  obtain ⟨id, t, d, err⟩ := u
  simp only at hID hData hErr
  simp only [jsonUnmarshalUpdate, jsonMarshalUpdate, List.append_assoc, List.cons_append,
    List.nil_append, dropLit_append, parseJsonStringBody_escape _ _ hID,
    parseJsonStringBody_escape _ _ hErr, takeDigits_typeDigit, digitsToNat_single,
    Nat.add_sub_cancel_left, updateTypeOfNat_toNat, parseDataValue_dataJson _ _ hData]
  rfl

/-- The length bytes Serialize puts in front form a four byte list. -/
theorem beUint32Bytes_length (n : Nat) : (beUint32Bytes n).length = 4 := rfl

/-- Reading the four length bytes back gives the length reduced modulo
two to the thirty two. -/
theorem beUint32_beUint32Bytes (n : Nat) :
    beUint32 (beUint32Bytes n) = n % 4294967296 := by
  simp [beUint32, beUint32Bytes]
  omega

/-- Helper: a dispatcher pass whose length read did not fail with io.EOF
never calls os.Exit. -/
theorem ctrlStep_not_exit (pfx body : List Nat) (e : Option ReadErr)
    (handler : Update → Option (List Nat)) (he : e ≠ some ReadErr.eof) (c : Nat) :
    ctrlStep (pfx, e) body handler ≠ CtrlOutcome.exit c := by
  intro hx
  unfold ctrlStep at hx
  rcases e with _ | er
  · simp only at hx
    split at hx
    · exact CtrlOutcome.noConfusion hx
    · split at hx
      · exact CtrlOutcome.noConfusion hx
      · split at hx
        · exact CtrlOutcome.noConfusion hx
        · split at hx
          · split at hx
            · split at hx
              · exact CtrlOutcome.noConfusion hx
              · exact CtrlOutcome.noConfusion hx
            · exact CtrlOutcome.noConfusion hx
          · exact CtrlOutcome.noConfusion hx
  · cases er
    · exact he rfl
    · simp only at hx
      split at hx
      · exact CtrlOutcome.noConfusion hx
      · split at hx
        · exact CtrlOutcome.noConfusion hx
        · split at hx
          · exact CtrlOutcome.noConfusion hx
          · split at hx
            · split at hx
              · split at hx
                · exact CtrlOutcome.noConfusion hx
                · exact CtrlOutcome.noConfusion hx
              · exact CtrlOutcome.noConfusion hx
            · exact CtrlOutcome.noConfusion hx

/-- C1: the dispatcher evaluated at the failing input of the claim.  A
serialised Start message with id abc and payload tbl1, handed to a handler
that returns the error text disk full, makes the loop crash with a nil
pointer dereference inside Update.Failure instead of writing one failure
acknowledgment carrying the handler error text, because the source passes
the nil json.Unmarshal error rather than the handler error to
Update.Failure. -/
theorem c1_handler_error_crashes_dispatcher :
    ctrlStep (beUint32Bytes (jsonMarshalUpdate startU).length, none) (jsonMarshalUpdate startU)
      (fun _ => some diskFullErr) = CtrlOutcome.panic := by decide

/-- C2, counterexample to the claim as stated: an update whose id is the
single byte 255, which is not valid UTF-8, does not round trip, because
json.Marshal coerces the id to the replacement character U+FFFD, so
deserialising the serialisation does not return the original message. -/
theorem c2_claim_false_on_invalid_utf8 :
    ¬ deserializeUpdate (Update.Serialize badIdU) = some badIdU := by decide

/-- C2 amended: for every control message whose id and error strings are
valid UTF-8, with any type of the enumerated set and any payload bytes
(nil, empty or not), stripping the four byte big endian length that
Serialize prepends and decoding the body as CommunicationHandler does
yields the message back in all fields; an id or error holding invalid
UTF-8 is coerced to replacement characters by json.Marshal, so its round
trip fails. -/
theorem c2_serialize_roundtrip (u : Update) (h : validUpdate u) :
    deserializeUpdate (Update.Serialize u) = some u := by
  have hlen : (beUint32Bytes (jsonMarshalUpdate u).length).length = 4 := rfl
  simp only [deserializeUpdate, Update.Serialize]
  rw [List.length_append, hlen, if_neg (by omega)]
  rw [show (4 : Nat) = (beUint32Bytes (jsonMarshalUpdate u).length).length from rfl,
    List.drop_left]
  exact jsonUnmarshalUpdate_marshal u h

/-- Witness for C2 at a concrete update with a non empty payload and an
empty error. -/
theorem c2_serialize_roundtrip_witness :
    validUpdate c2u ∧ deserializeUpdate (Update.Serialize c2u) = some c2u :=
  ⟨by decide, c2_serialize_roundtrip c2u (by decide)⟩

/-- C3: for every stream of read results, the request channel receives
exactly the frames with direction zero among the frames read, in their
original relative order; frames with any other direction are discarded
while processing continues. -/
theorem c3_request_queue_filter (events : List ReadOutcome) :
    (listenForRequestsRun events).sent
      = List.filter (fun f => f.Direction == 0) (framesRead events) := by
  induction events with
  | nil => rfl
  | cons e rest ih =>
    cases e with
    | ok f =>
      by_cases hd : f.Direction = 0
      · simp [listenForRequestsRun, framesRead, hd, ih]
      · simp [listenForRequestsRun, framesRead, hd, ih]
    | shutdownErr => rfl
    | eof => rfl
    | readErr => rfl

/-- C4, counterexample to the claim as stated: at k equal one the delay
inserted before attempt two is the first Duration result, 200
milliseconds, not min of Max and Min times Factor to the one, which is
400 milliseconds. -/
theorem c4_backoff_claim_false_at_one :
    ¬ sendDelayBefore (1 + 1) = min backoffMax (backoffMin * 2 ^ 1) := by decide

/-- C4 amended: the first write attempt has no delay, and for every k at
least one the delay before attempt k plus one, after k failed attempts,
is min of Max and Min times Factor to the k minus one. -/
theorem c4_backoff_growth_amended (k : Nat) (hk : 1 ≤ k) :
    sendDelayBefore 1 = 0 ∧
      sendDelayBefore (k + 1) = min backoffMax (backoffMin * 2 ^ (k - 1)) := by
  refine ⟨rfl, ?_⟩
  unfold sendDelayBefore forAttempt
  rw [if_neg (by omega), show k + 1 - 2 = k - 1 from by omega]
  rcases Nat.lt_or_ge backoffMax (backoffMin * 2 ^ (k - 1)) with h | h
  · rw [if_pos h, Nat.min_eq_left (Nat.le_of_lt h)]
  · rw [if_neg (by omega), Nat.min_eq_right h]

/-- Witness for the amended C4 at k equal seven, where the cap at Max is
reached. -/
theorem c4_backoff_growth_witness :
    sendDelayBefore 1 = 0 ∧ sendDelayBefore 8 = min backoffMax (backoffMin * 2 ^ 6) :=
  c4_backoff_growth_amended 7 (by decide)

/-- C5: a dispatcher pass calls os.Exit with some code exactly when the
read of the four length bytes failed with io.EOF, and the code is then
100; no other per message failure of the pass terminates the process. -/
theorem c5_exit_iff_eof (pfx body : List Nat) (e : Option ReadErr)
    (handler : Update → Option (List Nat)) (c : Nat) :
    ctrlStep (pfx, e) body handler = CtrlOutcome.exit c ↔ e = some ReadErr.eof ∧ c = 100 := by
  constructor
  · intro hx
    by_cases he : e = some ReadErr.eof
    · subst he
      refine ⟨rfl, ?_⟩
      have h100 : CtrlOutcome.exit 100 = CtrlOutcome.exit c := hx
      cases h100
      rfl
    · exact absurd hx (ctrlStep_not_exit pfx body e handler he c)
  · rintro ⟨rfl, rfl⟩
    rfl

/-- C6: whenever the request loop terminates, that is whenever the stream
of read results contains a failure, the request channel is closed exactly
once, and the cancel function is called exactly when the terminating
failure is not the ShutdownErr of cancellation. -/
theorem c6_request_loop_closes_once (events : List ReadOutcome) (e : ReadOutcome)
    (h : firstErr events = some e) :
    (listenForRequestsRun events).closeCount = 1 ∧
      (listenForRequestsRun events).terminated = true ∧
      ((listenForRequestsRun events).cancelCalled = true ↔ e ≠ ReadOutcome.shutdownErr) := by
  induction events with
  | nil => simp [firstErr] at h
  | cons ev rest ih =>
    cases ev with
    | ok f =>
      have h2 : firstErr rest = some e := by
        rw [firstErr.eq_def] at h
        simpa using h
      have hr := ih h2
      by_cases hd : f.Direction = 0
      · simp [listenForRequestsRun, hd, hr.1, hr.2.1, hr.2.2]
      · simp [listenForRequestsRun, hd, hr.1, hr.2.1, hr.2.2]
    | shutdownErr =>
      have he : e = ReadOutcome.shutdownErr := by
        rw [firstErr.eq_def] at h
        simpa using h.symm
      subst he
      simp [listenForRequestsRun]
    | eof =>
      have he : e = ReadOutcome.eof := by
        rw [firstErr.eq_def] at h
        simpa using h.symm
      subst he
      simp [listenForRequestsRun]
    | readErr =>
      have he : e = ReadOutcome.readErr := by
        rw [firstErr.eq_def] at h
        simpa using h.symm
      subst he
      simp [listenForRequestsRun]

/-- Witness for C6 on a stream that ends with io.EOF. -/
theorem c6_request_loop_closes_once_witness :
    (listenForRequestsRun [ReadOutcome.eof]).closeCount = 1 ∧
      (listenForRequestsRun [ReadOutcome.eof]).terminated = true ∧
      ((listenForRequestsRun [ReadOutcome.eof]).cancelCalled = true ↔
        ReadOutcome.eof ≠ ReadOutcome.shutdownErr) :=
  c6_request_loop_closes_once [ReadOutcome.eof] ReadOutcome.eof rfl

/-- C7: a dispatcher pass that decodes a message whose type is Success or
Failure writes no outbound message at all. -/
theorem c7_ack_produces_no_outbound (pfx body : List Nat) (e : Option ReadErr)
    (handler : Update → Option (List Nat)) (u : Update)
    (he : e ≠ some ReadErr.eof)
    (h4 : ¬ pfx.length < 4)
    (hlen : ¬ body.length < beUint32 (pfx.take 4))
    (hdec : jsonUnmarshalUpdate (body.take (beUint32 (pfx.take 4))) = some u)
    (hack : u.«Type» = UpdateType.Success ∨ u.«Type» = UpdateType.Failure) :
    ctrlStep (pfx, e) body handler = CtrlOutcome.handled [] := by
  have hcond : ¬ (u.«Type» ≠ UpdateType.Success ∧ u.«Type» ≠ UpdateType.Failure) := by
    rcases hack with h | h <;> simp [h]
  unfold ctrlStep
  rcases e with _ | er
  · simp only [if_neg h4, if_neg hlen, hdec, if_neg hcond]
  · cases er
    · exact absurd rfl he
    · simp only [if_neg h4, if_neg hlen, hdec, if_neg hcond]

/-- Witness for C7 on a concrete serialised Success acknowledgment. -/
theorem c7_ack_produces_no_outbound_witness :
    ctrlStep (beUint32Bytes (jsonMarshalUpdate ackU).length, none) (jsonMarshalUpdate ackU)
      (fun _ => some [120]) = CtrlOutcome.handled [] :=
  c7_ack_produces_no_outbound _ _ _ _ ackU (by decide) (by decide) (by decide) (by decide)
    (by decide)

/-- Helper: the close count after folding the teardown steps is one
exactly when each loop either started stopped or stops in the event list,
given the invariant relating count and flags. -/
theorem teardown_foldl_closeCount (events : List LoopStop) (s : TeardownState)
    (hs : s.connCloseCount = if s.reqStopped ∧ s.respStopped then 1 else 0) :
    (List.foldl teardownStep s events).connCloseCount =
      if (s.reqStopped = true ∨ LoopStop.requestLoopStopped ∈ events)
          ∧ (s.respStopped = true ∨ LoopStop.responseLoopStopped ∈ events) then 1 else 0 := by
  induction events generalizing s with
  | nil => simpa using hs
  | cons e rest ih =>
    rw [List.foldl_cons]
    rcases s with ⟨r1, r2, c⟩
    cases e with
    | requestLoopStopped => cases r1 <;> cases r2 <;> simp_all [teardownStep]
    | responseLoopStopped => cases r1 <;> cases r2 <;> simp_all [teardownStep]

/-- C8: over any session in which both relay loops stop, in either order
and however often the stop events repeat, the client connection is closed
exactly once. -/
theorem c8_connection_closed_once (events : List LoopStop)
    (hreq : LoopStop.requestLoopStopped ∈ events)
    (hresp : LoopStop.responseLoopStopped ∈ events) :
    (runTeardown events).connCloseCount = 1 := by
  unfold runTeardown
  rw [teardown_foldl_closeCount events ⟨false, false, 0⟩ rfl]
  simp [hreq, hresp]

/-- Witness for C8 with the request loop stopping first. -/
theorem c8_connection_closed_once_witness :
    (runTeardown [LoopStop.requestLoopStopped, LoopStop.responseLoopStopped]).connCloseCount
      = 1 :=
  c8_connection_closed_once _ (by decide) (by decide)

/-- C9, counterexample to the claim as stated: the empty payload popped
from the response queue is not written to the client at all, because the
loop crashes indexing position four of the payload before the write. -/
theorem c9_claim_false_on_short_payload :
    ¬ writtenBytes (respStep (some [])) = some [] := by decide

/-- C9 amended: every payload of length at least five popped from the
response queue is written to the client connection byte for byte
unmodified; payloads shorter than five bytes crash the loop before any
write. -/
theorem c9_response_written_verbatim (response : List Nat) (h : 5 ≤ response.length) :
    writtenBytes (respStep (some response)) = some response := by
  simp only [respStep, writeToConnection, if_pos (show 4 < response.length by omega)]
  rfl

/-- Witness for the amended C9 on the five byte payload of the spec
scenario. -/
theorem c9_response_written_verbatim_witness :
    writtenBytes (respStep (some [0, 0, 0, 0, 8])) = some [0, 0, 0, 0, 8] :=
  c9_response_written_verbatim [0, 0, 0, 0, 8] (by decide)

/-- C10: a response loop pass on a popped payload avoids the out of
bounds access at index four exactly when the payload holds at least five
bytes; any shorter payload makes the indexing out of bounds. -/
theorem c10_safe_iff_payload_at_least_five (response : List Nat) :
    respStep (some response) ≠ RespOutcome.outOfBounds ↔ 5 ≤ response.length := by
  unfold respStep writeToConnection
  by_cases h : 4 < response.length
  · simp [if_pos h]
    omega
  · simp [if_neg h]
    omega
